import Mathlib

/-!
Verification development for the x402-demo agent-commerce system.

This file gives a shallow embedding, in Lean 4, of the core state machines of
the repository and proves (or refutes) the specified properties about them:

* `a2a/client_agent/task_store.py` — the `TaskStore` class: task registry,
  status updates and chunked-artifact reassembly (`update_task`,
  `_get_or_create`, `_process_artifact`);
* `a2a/server/executor.py` — the tool-execution step of the resumable tool
  loop (`ADKAgentExecutor._exec_tools`) and the payment-verified injection in
  `ADKAgentExecutor.execute`;
* `a2a/server/payment.py` — the facilitator-backed payment executor
  (`x402MerchantExecutor.verify_payment`, `settle_payment`, `_enrich_accepts`);
* `a2a/server/merchant.py` — `MerchantAgent.before_agent_callback`.

Python dictionaries keyed by strings are embedded as functions
`String → Option _` (or `String → List _` where the code treats a missing key
and an empty list identically, as `self._chunks.get(aid) or [None]` does).
Python truthiness is made explicit at each use site.  Mutation is embedded as
explicit state passing; exceptions as `Except`.
-/

namespace X402

/-- One content part of an artifact (opaque payload). -/
structure Part where
  content : String
deriving Repr, DecidableEq

/-- `a2a.types.Artifact`: an artifact id together with its ordered parts. -/
structure Artifact where
  artifactId : String
  parts : List Part
deriving Repr, DecidableEq

/-- `a2a.types.TaskState` (the members used by this repository). -/
inductive TaskState where
  | submitted
  | working
  | input_required
  | completed
  | canceled
  | failed
  | rejected
  | unknown
deriving Repr, DecidableEq

/-- `a2a.types.TaskStatus`: a state plus an optional human-readable message. -/
structure TaskStatus where
  state : TaskState
  message : Option String
deriving Repr, DecidableEq

/-- `a2a.types.Task` (the fields used by `TaskStore`). `artifacts` is
`Option (List Artifact)` because the Python code distinguishes a `None`
artifact list from a present one by truthiness. -/
structure Task where
  id : String
  contextId : Option String
  status : TaskStatus
  artifacts : Option (List Artifact)
deriving Repr, DecidableEq

/-- The list of artifacts of a task, treating a Python `None` as empty. -/
def Task.artifactList (t : Task) : List Artifact :=
  t.artifacts.getD []

/-- `a2a.types.TaskStatusUpdateEvent` (fields used by `TaskStore`). -/
structure TaskStatusUpdateEvent where
  taskId : Option String
  contextId : Option String
  status : TaskStatus
deriving Repr, DecidableEq

/-- `a2a.types.TaskArtifactUpdateEvent` (fields used by `TaskStore`).
`append` and `lastChunk` are tri-state (`None`/`False`/`True`) in the
protocol, hence `Option Bool`. -/
structure TaskArtifactUpdateEvent where
  taskId : Option String
  contextId : Option String
  artifact : Artifact
  append : Option Bool
  lastChunk : Option Bool
deriving Repr, DecidableEq

/-- `TaskCallbackArg = Task | TaskStatusUpdateEvent | TaskArtifactUpdateEvent`
(from `client_agent/remote.py`). -/
inductive TaskCallbackArg where
  | statusEvent (e : TaskStatusUpdateEvent)
  | artifactEvent (e : TaskArtifactUpdateEvent)
  | rawTask (t : Task)
deriving Repr, DecidableEq

/-- The state of `TaskStore`: `self._tasks` (dict id → Task) and
`self._chunks` (dict artifactId → list of buffered artifacts).  A missing
`_chunks` key and an empty list behave identically in the source
(`self._chunks.get(aid) or [None]`), so chunks map to `List Artifact`
directly.  `fresh` drives the model of `uuid.uuid4()`: each draw yields a
distinct id `"uuid-" ++ n`. -/
structure TaskStore where
  tasks : String → Option Task
  chunks : String → List Artifact
  fresh : Nat

/-- The empty store built by `TaskStore.__init__`. -/
def TaskStore.empty : TaskStore :=
  ⟨fun _ => none, fun _ => [], 0⟩

/-- Point update of the task map (`self._tasks[k] = v`). -/
def updT (f : String → Option Task) (k : String) (v : Task) : String → Option Task :=
  fun id => if id = k then some v else f id

/-- Point update of the chunk map (`self._chunks[k] = v`). -/
def updC (f : String → List Artifact) (k : String) (v : List Artifact) :
    String → List Artifact :=
  fun id => if id = k then v else f id

/-- Python truthiness of an optional string (`if task_id`): `None` and the
empty string are falsy. -/
def strTruthy : Option String → Bool
  | none => false
  | some s => s != ""

/-- `TaskStore._get_or_create` when the falsy-`task_id` branch is taken:
`tid = task_id or str(uuid.uuid4())` draws a fresh uuid. -/
def get_or_create_fresh (st : TaskStore) (contextId : Option String) :
    Task × TaskStore :=
  let tid := "uuid-" ++ toString st.fresh
  let t : Task := ⟨tid, contextId, ⟨TaskState.submitted, none⟩, some []⟩
  (t, { st with tasks := updT st.tasks tid t, fresh := st.fresh + 1 })

/-- `TaskStore._get_or_create`: return the stored task when `task_id` is
truthy and present; otherwise create (and store) a new task in state
`submitted` with an empty artifact list, keyed by `task_id` when truthy,
by a fresh uuid otherwise. -/
def get_or_create (st : TaskStore) (taskId contextId : Option String) :
    Task × TaskStore :=
  match taskId with
  | none => get_or_create_fresh st contextId
  | some tid =>
    if tid = "" then get_or_create_fresh st contextId
    else
      match st.tasks tid with
      | some t => (t, st)
      | none =>
        let t : Task := ⟨tid, contextId, ⟨TaskState.submitted, none⟩, some []⟩
        (t, { st with tasks := updT st.tasks tid t })

/-- The artifact-list append of `task_store.py` lines 44 and 53:
`(task.artifacts or []).append(a) if task.artifacts else
setattr(task, "artifacts", [a])`.  A `None` or empty list is replaced by the
singleton; a non-empty list is extended in place. -/
def appendArtifact : Option (List Artifact) → Artifact → Option (List Artifact)
  | none, a => some [a]
  | some l, a => if l.isEmpty then some [a] else some (l ++ [a])

/-- `TaskStore._process_artifact`, acting on the event's task and the shared
chunk map.  Mirrors the source line by line:
* `append` falsy: `lastChunk` `None`-or-`True` appends the artifact directly
  to the task; explicit `False` pushes it onto `self._chunks[aid]`.
* `append` truthy: `temp = (self._chunks.get(aid) or [None])[-1]`; if no
  buffered fragment, return unchanged; else extend `temp.parts` with the
  incoming parts, and when `lastChunk` is truthy move the extended fragment
  to the task's artifacts and pop it from the buffer. -/
def process_artifact (task : Task) (chunks : String → List Artifact)
    (e : TaskArtifactUpdateEvent) : Task × (String → List Artifact) :=
  let artifact := e.artifact
  let aid := artifact.artifactId
  if e.append ≠ some true then
    if e.lastChunk = none ∨ e.lastChunk = some true then
      ({ task with artifacts := appendArtifact task.artifacts artifact }, chunks)
    else
      (task, updC chunks aid (chunks aid ++ [artifact]))
  else
    match (chunks aid).getLast? with
    | none => (task, chunks)
    | some temp =>
      let temp2 : Artifact := { temp with parts := temp.parts ++ artifact.parts }
      if e.lastChunk = some true then
        ({ task with artifacts := appendArtifact task.artifacts temp2 },
         updC chunks aid (chunks aid).dropLast)
      else
        (task, updC chunks aid ((chunks aid).dropLast ++ [temp2]))

/-- `TaskStore.update_task`: dispatch on the event kind, fetch-or-create the
task, apply the event, store the task back under its id, and return it. -/
def update_task (st : TaskStore) (ev : TaskCallbackArg) : Task × TaskStore :=
  match ev with
  | .statusEvent e =>
    let r := get_or_create st e.taskId e.contextId
    let task := { r.1 with status := e.status }
    (task, { r.2 with tasks := updT r.2.tasks task.id task })
  | .artifactEvent e =>
    let r := get_or_create st e.taskId e.contextId
    let p := process_artifact r.1 r.2.chunks e
    (p.1, { r.2 with tasks := updT r.2.tasks p.1.id p.1, chunks := p.2 })
  | .rawTask t =>
    (t, { st with tasks := updT st.tasks t.id t })

/-- Apply a sequence of callback events in order, keeping the final store. -/
def applyEvents (st : TaskStore) (evs : List TaskCallbackArg) : TaskStore :=
  evs.foldl (fun s e => (update_task s e).2) st

/-! ### Event constructors used by the testable properties -/

/-- An artifact event that starts a chunk sequence:
`append=false, lastChunk=false`. -/
def startEvent (t x : String) (ps : List Part) : TaskCallbackArg :=
  .artifactEvent ⟨some t, none, ⟨x, ps⟩, some false, some false⟩

/-- A non-terminal continuation fragment: `append=true, lastChunk=false`. -/
def midEvent (t x : String) (ps : List Part) : TaskCallbackArg :=
  .artifactEvent ⟨some t, none, ⟨x, ps⟩, some true, some false⟩

/-- The terminal fragment: `append=true, lastChunk=true`. -/
def lastEvent (t x : String) (ps : List Part) : TaskCallbackArg :=
  .artifactEvent ⟨some t, none, ⟨x, ps⟩, some true, some true⟩

/-- A status update event for task `t`. -/
def statusEvent (t : String) (s : TaskState) : TaskCallbackArg :=
  .statusEvent ⟨some t, none, ⟨s, none⟩⟩

/-! ### Point-update lemmas -/

theorem updT_apply_self (f : String → Option Task) (k : String) (v : Task) :
    updT f k v k = some v := by
  simp [updT]

theorem updT_apply_ne (f : String → Option Task) (k id : String) (v : Task)
    (h : id ≠ k) : updT f k v id = f id := by
  simp [updT, h]

theorem updT_updT_self (f : String → Option Task) (k : String) (v w : Task) :
    updT (updT f k v) k w = updT f k w := by
  funext id
  by_cases h : id = k <;> simp [updT, h]

theorem updT_self_eq (f : String → Option Task) (k : String) (v : Task)
    (h : f k = some v) : updT f k v = f := by
  funext id
  by_cases hid : id = k
  · subst hid; simp [updT, h]
  · simp [updT, hid]

theorem updC_apply_self (f : String → List Artifact) (k : String)
    (v : List Artifact) : updC f k v k = v := by
  simp [updC]

theorem updC_apply_ne (f : String → List Artifact) (k id : String)
    (v : List Artifact) (h : id ≠ k) : updC f k v id = f id := by
  simp [updC, h]

theorem updC_updC_self (f : String → List Artifact) (k : String)
    (v w : List Artifact) : updC (updC f k v) k w = updC f k w := by
  funext id
  by_cases h : id = k <;> simp [updC, h]

theorem updC_self_eq (f : String → List Artifact) (k : String)
    (v : List Artifact) (h : f k = v) : updC f k v = f := by
  funext id
  by_cases hid : id = k
  · subst hid; simp [updC, h]
  · simp [updC, hid]

/-! ### C1: in-order chunk reassembly -/

/-- The task record created by `_get_or_create` for a fresh truthy id. -/
def newTask (tid : String) (ctx : Option String) : Task :=
  ⟨tid, ctx, ⟨TaskState.submitted, none⟩, some []⟩

/-- The store reached after a start event for artifact `x` on a fresh task
`t`, followed by any number of non-terminal appends whose accumulated parts
are `acc`. -/
def chunkState (t x : String) (acc : List Part) : TaskStore :=
  ⟨updT (fun _ => none) t (newTask t none), updC (fun _ => []) x [⟨x, acc⟩], 0⟩

/-- The store reached once the terminal fragment lands: one fully assembled
artifact on task `t`, chunk buffer drained. -/
def doneState (t x : String) (acc : List Part) : TaskStore :=
  ⟨updT (fun _ => none) t { newTask t none with artifacts := some [⟨x, acc⟩] },
   fun _ => [], 0⟩

theorem c1_start_step (t x : String) (ht : t ≠ "") (p0 : List Part) :
    (update_task TaskStore.empty (startEvent t x p0)).2 = chunkState t x p0 := by
  simp only [update_task, startEvent, get_or_create, TaskStore.empty,
    process_artifact, chunkState, newTask, if_neg ht]
  simp [updT_updT_self]

theorem c1_mid_step (t x : String) (ht : t ≠ "") (acc ps : List Part) :
    (update_task (chunkState t x acc) (midEvent t x ps)).2 =
      chunkState t x (acc ++ ps) := by
  simp only [update_task, midEvent, get_or_create, chunkState, newTask,
    process_artifact, if_neg ht, updT_apply_self, updC_apply_self]
  simp [updT_updT_self, updC_updC_self]

theorem c1_last_step (t x : String) (ht : t ≠ "") (acc ps : List Part) :
    (update_task (chunkState t x acc) (lastEvent t x ps)).2 =
      doneState t x (acc ++ ps) := by
  simp [update_task, lastEvent, get_or_create, chunkState, newTask,
    doneState, process_artifact, if_neg ht, updT_apply_self, updC_apply_self,
    appendArtifact, updT_updT_self, updC_updC_self]
  exact updC_self_eq _ _ _ rfl

theorem c1_mids_then_last (t x : String) (ht : t ≠ "") (pn : List Part) :
    ∀ (mids : List (List Part)) (acc : List Part),
      applyEvents (chunkState t x acc)
        (mids.map (midEvent t x) ++ [lastEvent t x pn]) =
      doneState t x (acc ++ mids.flatten ++ pn) := by
  intro mids
  induction mids with
  | nil =>
    intro acc
    simpa [applyEvents] using c1_last_step t x ht acc pn
  | cons ps rest ih =>
    intro acc
    have hstep := c1_mid_step t x ht acc ps
    simp only [List.map_cons, List.cons_append, applyEvents, List.foldl_cons]
    rw [show (update_task (chunkState t x acc)
        (midEvent t x ps)).2 = chunkState t x (acc ++ ps) from hstep]
    have := ih (acc ++ ps)
    simp only [applyEvents] at this
    rw [this]
    simp [List.append_assoc]

/-- C1.  For every sequence of artifact events for one `artifactId`
consisting of a start event (`append=false, lastChunk=false`) followed by
zero or more non-terminal `append=true` fragments and a final
`append=true, lastChunk=true` fragment, applying them in order to a fresh
task store yields exactly one artifact on the task, whose parts are the
concatenation of all fragments' parts in arrival order. -/
theorem c1_chunk_reassembly_concat (t x : String) (ht : t ≠ "")
    (p0 pn : List Part) (mids : List (List Part)) :
    ((applyEvents TaskStore.empty
        (startEvent t x p0 :: (mids.map (midEvent t x) ++ [lastEvent t x pn]))).tasks t) =
      some ⟨t, none, ⟨TaskState.submitted, none⟩,
            some [⟨x, p0 ++ mids.flatten ++ pn⟩]⟩ := by
  have h0 : applyEvents TaskStore.empty
      (startEvent t x p0 :: (mids.map (midEvent t x) ++ [lastEvent t x pn])) =
      doneState t x (p0 ++ mids.flatten ++ pn) := by
    simp only [applyEvents, List.foldl_cons]
    rw [show (update_task TaskStore.empty (startEvent t x p0)).2 =
        chunkState t x p0 from c1_start_step t x ht p0]
    exact c1_mids_then_last t x ht pn mids p0
  rw [h0]
  simp [doneState, newTask, updT_apply_self]

/-- Witness for C1: Scenario A of the spec, with `t="t1"`, `x="x"`,
fragments `[p1]`, `[p2]`, `[p3]`. -/
theorem c1_witness :
    ("t1" : String) ≠ "" ∧
    ((applyEvents TaskStore.empty
        (startEvent "t1" "x" [⟨"p1"⟩] ::
          ([[⟨"p2"⟩]].map (midEvent "t1" "x") ++ [lastEvent "t1" "x" [⟨"p3"⟩]]))).tasks "t1") =
      some ⟨"t1", none, ⟨TaskState.submitted, none⟩,
            some [⟨"x", [⟨"p1"⟩, ⟨"p2"⟩, ⟨"p3"⟩]⟩]⟩ :=
  ⟨by decide, by
    have h := c1_chunk_reassembly_concat "t1" "x" (by decide)
      [⟨"p1"⟩] [⟨"p3"⟩] [[⟨"p2"⟩]]
    simpa using h⟩

/-! ### C2: status transitions after a terminal state -/

/-- C2 counterexample.  The claim says `completed`/`failed` are terminal and
a post-terminal status event leaves the state unchanged.  On the code,
`update_task` overwrites `task.status` unconditionally: after a `completed`
event, a `working` event for the same task id moves the state back to
`working`. -/
theorem c2_counterexample :
    (((applyEvents TaskStore.empty
        [statusEvent "t1" TaskState.completed,
         statusEvent "t1" TaskState.working]).tasks "t1").map
      (fun tk => tk.status.state)) = some TaskState.working ∧
    TaskState.working ≠ TaskState.completed := by
  exact ⟨by decide, by decide⟩

/-- C2 amended.  `update_task` applies a status event by unconditionally
overwriting the stored task's status with the event's status (no terminal
check), and it never fails; consequently re-applying an event carrying the
task's current status — in particular an already-applied terminal status —
leaves the store completely unchanged (idempotence), while a post-terminal
event with a different state does change the state. -/
theorem c2_amended_status_overwrite (st : TaskStore) (t : String)
    (ctx : Option String) (s : TaskStatus) (tk : Task)
    (ht : t ≠ "") (htk : st.tasks t = some tk) (hid : tk.id = t) :
    ((update_task st (.statusEvent ⟨some t, ctx, s⟩)).2.tasks t =
        some { tk with status := s }) ∧
    (tk.status = s → (update_task st (.statusEvent ⟨some t, ctx, s⟩)).2 = st) := by
  obtain ⟨tid, tctx, tst, tart⟩ := tk
  obtain rfl : tid = t := hid
  have hg : get_or_create st (some tid) ctx = (⟨tid, tctx, tst, tart⟩, st) := by
    simp [get_or_create, if_neg ht, htk]
  constructor
  · simp [update_task, hg, updT_apply_self]
  · intro hs
    have hs' : tst = s := hs
    subst hs'
    simp [update_task, hg, updT_self_eq st.tasks tid _ htk]

/-- A demo task, already in terminal state `completed`. -/
def tkDemo : Task := ⟨"t1", none, ⟨TaskState.completed, none⟩, some []⟩

/-- A demo store holding `tkDemo` and one open chunk fragment for id `x`. -/
def stDemo : TaskStore :=
  ⟨updT (fun _ => none) "t1" tkDemo,
   updC (fun _ => []) "x" [⟨"x", [⟨"p0"⟩]⟩], 0⟩

/-- Witness for the amended C2: re-applying the `completed` status to the
already-completed `tkDemo` leaves the store unchanged. -/
theorem c2_amended_witness :
    (update_task stDemo
        (.statusEvent ⟨some "t1", none, ⟨TaskState.completed, none⟩⟩)).2 =
      stDemo :=
  (c2_amended_status_overwrite stDemo "t1" none ⟨TaskState.completed, none⟩
      tkDemo (by decide) (by decide) (by decide)).2 (by decide)

/-! ### C7: a second start event for an already-open artifactId -/

/-- C7 counterexample.  The claim says a second start event for an open
`artifactId` overwrites the buffered entry so that only one open fragment is
tracked.  On the code, the second start is appended to `self._chunks[aid]`:
after two starts, two open fragments are buffered, and after two terminal
appends both fragments — the first one included — are finalized. -/
theorem c7_counterexample :
    ((applyEvents TaskStore.empty
        [startEvent "t1" "x" [⟨"p1"⟩], startEvent "t1" "x" [⟨"p2"⟩]]).chunks "x" =
      [⟨"x", [⟨"p1"⟩]⟩, ⟨"x", [⟨"p2"⟩]⟩]) ∧
    ((applyEvents TaskStore.empty
        [startEvent "t1" "x" [⟨"p1"⟩], startEvent "t1" "x" [⟨"p2"⟩],
         lastEvent "t1" "x" [⟨"p3"⟩], lastEvent "t1" "x" [⟨"p4"⟩]]).tasks "t1" =
      some ⟨"t1", none, ⟨TaskState.submitted, none⟩,
            some [⟨"x", [⟨"p2"⟩, ⟨"p3"⟩]⟩, ⟨"x", [⟨"p1"⟩, ⟨"p4"⟩]⟩]⟩) := by
  exact ⟨by decide, by decide⟩

/-- C7 amended.  A second start event for an open `artifactId` is pushed on
top of that id's buffered sequence (the earlier open fragment stays buffered
beneath it, and becomes active again once the fragment above it is
finalized); subsequent append events extend the most recent start —
last-writer-wins applies only to which fragment is currently extended, not
to the buffer contents. -/
theorem c7_amended_second_start_pushes (st : TaskStore) (t : String)
    (tk : Task) (x : String) (ps qs : List Part)
    (ht : t ≠ "") (htk : st.tasks t = some tk) (hid : tk.id = t) :
    ((update_task st (startEvent t x ps)).2.chunks x =
        st.chunks x ++ [⟨x, ps⟩]) ∧
    ((update_task st (startEvent t x ps)).2.tasks = st.tasks) ∧
    (∀ l a, st.chunks x = l ++ [a] →
      (update_task st (midEvent t x qs)).2.chunks x =
        l ++ [{ a with parts := a.parts ++ qs }]) := by
  have hg : get_or_create st (some t) none = (tk, st) := by
    simp [get_or_create, if_neg ht, htk]
  refine ⟨?_, ?_, ?_⟩
  · simp [update_task, startEvent, hg, process_artifact, updC_apply_self]
  · simp [update_task, startEvent, hg, process_artifact, hid,
      updT_self_eq st.tasks t tk htk]
  · intro l a hb
    simp [update_task, midEvent, hg, process_artifact, hb,
      List.getLast?_concat, List.dropLast_concat, updC_apply_self]

/-- Witness for the amended C7: on `stDemo` (one open fragment `p0` for id
`x`), a second start pushes `p1` on top, and an append extends the top
fragment. -/
theorem c7_amended_witness :
    ((update_task stDemo (startEvent "t1" "x" [⟨"p1"⟩])).2.chunks "x" =
      [⟨"x", [⟨"p0"⟩]⟩, ⟨"x", [⟨"p1"⟩]⟩]) ∧
    ((update_task stDemo (midEvent "t1" "x" [⟨"q"⟩])).2.chunks "x" =
      [⟨"x", [⟨"p0"⟩, ⟨"q"⟩]⟩]) := by
  have h := c7_amended_second_start_pushes stDemo "t1" tkDemo "x"
    [⟨"p1"⟩] [⟨"q"⟩] (by decide) (by decide) (by decide)
  refine ⟨?_, ?_⟩
  · have h1 := h.1
    rw [h1]
    decide
  · rw [h.2.2 [] ⟨"x", [⟨"p0"⟩]⟩ (by decide)]
    decide

/-! ### C8: append with no buffered fragment is a silent no-op -/

/-- C8.  Applying an `append=true` artifact event whose `artifactId` has no
buffered in-progress fragment is a silent no-op: `update_task` returns the
stored task unchanged and the store — task artifact lists and pending chunk
buffer both — is exactly as before (the function is total, so nothing is
raised). -/
theorem c8_append_without_buffer_noop (st : TaskStore) (t : String)
    (ctx : Option String) (art : Artifact) (lc : Option Bool) (tk : Task)
    (ht : t ≠ "") (htk : st.tasks t = some tk) (hid : tk.id = t)
    (hch : st.chunks art.artifactId = []) :
    update_task st (.artifactEvent ⟨some t, ctx, art, some true, lc⟩) =
      (tk, st) := by
  have hg : get_or_create st (some t) ctx = (tk, st) := by
    simp [get_or_create, if_neg ht, htk]
  simp [update_task, hg, process_artifact, hch, hid,
    updT_self_eq st.tasks t tk htk]

/-- Witness for C8: on `stDemo`, an append for id `z` (no buffered fragment)
leaves the store untouched. -/
theorem c8_witness :
    update_task stDemo
        (.artifactEvent ⟨some "t1", none, ⟨"z", [⟨"q"⟩]⟩, some true, some false⟩) =
      (tkDemo, stDemo) :=
  c8_append_without_buffer_noop stDemo "t1" none ⟨"z", [⟨"q"⟩]⟩ (some false)
    tkDemo (by decide) (by decide) (by decide) (by decide)

/-! ### C9: no partial-artifact leaks -/

/-- The chunk sequence of id `x` is opened only with an explicit
`lastChunk=false` and never receives a terminating fragment: every event for
`x` is either a non-append fragment with `lastChunk` explicitly `false`, or
an `append=true` fragment whose `lastChunk` is not `true`. -/
def NeverTerminates (x : String) (e : TaskArtifactUpdateEvent) : Prop :=
  e.artifact.artifactId = x →
    (e.append = some true → e.lastChunk ≠ some true) ∧
    (e.append ≠ some true → e.lastChunk = some false)

instance (x : String) (e : TaskArtifactUpdateEvent) :
    Decidable (NeverTerminates x e) := by
  unfold NeverTerminates
  infer_instance

/-- No task in the map shows an artifact with id `x`. -/
def TasksOk (x : String) (f : String → Option Task) : Prop :=
  ∀ tid t, f tid = some t → ∀ a ∈ t.artifactList, a.artifactId ≠ x

/-- Every buffered fragment sits under its own artifact id. -/
def ChunksOk (g : String → List Artifact) : Prop :=
  ∀ aid a, a ∈ g aid → a.artifactId = aid

theorem appendArtifact_eq (o : Option (List Artifact)) (b : Artifact) :
    appendArtifact o b = some (o.getD [] ++ [b]) := by
  cases o with
  | none => rfl
  | some l =>
    by_cases h : l.isEmpty
    · simp [appendArtifact, h, List.isEmpty_iff.mp h]
    · simp [appendArtifact, h]

theorem updT_tasksOk (x : String) (f : String → Option Task) (k : String)
    (v : Task) (hf : TasksOk x f) (hv : ∀ a ∈ v.artifactList, a.artifactId ≠ x) :
    TasksOk x (updT f k v) := by
  intro tid t ht
  by_cases h : tid = k
  · subst h
    rw [updT_apply_self] at ht
    cases ht
    exact hv
  · rw [updT_apply_ne _ _ _ _ h] at ht
    exact hf tid t ht

theorem get_or_create_chunks (st : TaskStore) (tid ctx : Option String) :
    (get_or_create st tid ctx).2.chunks = st.chunks := by
  unfold get_or_create get_or_create_fresh
  cases tid with
  | none => rfl
  | some s =>
    by_cases h : s = ""
    · simp [h]
    · simp only [if_neg h]
      cases hm : st.tasks s <;> simp

theorem get_or_create_fresh_eq (st : TaskStore) (ctx : Option String) :
    (get_or_create st (none : Option String) ctx) = get_or_create_fresh st ctx := rfl

theorem get_or_create_tasksOk (x : String) (st : TaskStore)
    (tid ctx : Option String) (hT : TasksOk x st.tasks) :
    TasksOk x (get_or_create st tid ctx).2.tasks ∧
    (∀ a ∈ (get_or_create st tid ctx).1.artifactList, a.artifactId ≠ x) := by
  have hnew : ∀ (i : String) (c : Option String),
      ∀ a ∈ (⟨i, c, ⟨TaskState.submitted, none⟩, some []⟩ : Task).artifactList,
        a.artifactId ≠ x := by
    intro i c a ha
    simp [Task.artifactList] at ha
  unfold get_or_create get_or_create_fresh
  cases tid with
  | none =>
    exact ⟨updT_tasksOk x st.tasks _ _ hT (hnew _ _), hnew _ _⟩
  | some s =>
    by_cases h : s = ""
    · simp only [if_pos h]
      exact ⟨updT_tasksOk x st.tasks _ _ hT (hnew _ _), hnew _ _⟩
    · simp only [if_neg h]
      cases hm : st.tasks s with
      | some t => exact ⟨hT, hT s t hm⟩
      | none => exact ⟨updT_tasksOk x st.tasks _ _ hT (hnew _ _), hnew _ _⟩

theorem updC_chunksOk (g : String → List Artifact) (k : String)
    (v : List Artifact) (hg : ChunksOk g) (hv : ∀ a ∈ v, a.artifactId = k) :
    ChunksOk (updC g k v) := by
  intro aid a ha
  by_cases h : aid = k
  · subst h
    rw [updC_apply_self] at ha
    exact hv a ha
  · rw [updC_apply_ne _ _ _ _ h] at ha
    exact hg aid a ha

theorem process_artifact_inv (x : String) (task : Task)
    (chunks : String → List Artifact) (e : TaskArtifactUpdateEvent)
    (hta : ∀ a ∈ task.artifactList, a.artifactId ≠ x)
    (hch : ChunksOk chunks) (he : NeverTerminates x e) :
    (∀ a ∈ (process_artifact task chunks e).1.artifactList, a.artifactId ≠ x) ∧
    ChunksOk (process_artifact task chunks e).2 := by
  unfold process_artifact
  by_cases hap : e.append ≠ some true
  · rw [if_pos hap]
    by_cases hlc : e.lastChunk = none ∨ e.lastChunk = some true
    · rw [if_pos hlc]
      refine ⟨?_, hch⟩
      have hne : e.artifact.artifactId ≠ x := by
        intro hx
        have := (he hx).2 hap
        rcases hlc with h | h <;> rw [this] at h <;> cases h
      intro a ha
      simp only [Task.artifactList, appendArtifact_eq, Option.getD_some,
        List.mem_append, List.mem_singleton] at ha
      rcases ha with h | h
      · exact hta a (by simpa [Task.artifactList] using h)
      · subst h; exact hne
    · rw [if_neg hlc]
      refine ⟨hta, updC_chunksOk _ _ _ hch ?_⟩
      intro a ha
      rcases List.mem_append.mp ha with h | h
      · exact hch _ a h
      · rw [List.mem_singleton.mp h]
  · rw [if_neg hap]
    push_neg at hap
    cases hlast : (chunks e.artifact.artifactId).getLast? with
    | none => exact ⟨hta, hch⟩
    | some temp =>
      have htemp : temp.artifactId = e.artifact.artifactId :=
        hch _ temp (List.mem_of_mem_getLast? hlast)
      dsimp only
      by_cases hlc : e.lastChunk = some true
      · rw [if_pos hlc]
        have hne : e.artifact.artifactId ≠ x := by
          intro hx
          exact (he hx).1 hap hlc
        refine ⟨?_, updC_chunksOk _ _ _ hch ?_⟩
        · intro a ha
          simp only [Task.artifactList, appendArtifact_eq, Option.getD_some,
            List.mem_append, List.mem_singleton] at ha
          rcases ha with h | h
          · exact hta a (by simpa [Task.artifactList] using h)
          · subst h
            simpa [htemp] using hne
        · intro a ha
          exact hch _ a (List.mem_of_mem_dropLast ha)
      · rw [if_neg hlc]
        refine ⟨hta, updC_chunksOk _ _ _ hch ?_⟩
        intro a ha
        rcases List.mem_append.mp ha with h | h
        · exact hch _ a (List.mem_of_mem_dropLast h)
        · rw [List.mem_singleton.mp h]
          exact htemp

theorem update_task_inv (x : String) (st : TaskStore)
    (e : TaskArtifactUpdateEvent) (hT : TasksOk x st.tasks)
    (hC : ChunksOk st.chunks) (he : NeverTerminates x e) :
    TasksOk x (update_task st (.artifactEvent e)).2.tasks ∧
    ChunksOk (update_task st (.artifactEvent e)).2.chunks := by
  have hgc := get_or_create_chunks st e.taskId e.contextId
  have hgt := get_or_create_tasksOk x st e.taskId e.contextId hT
  have hp := process_artifact_inv x (get_or_create st e.taskId e.contextId).1
    (get_or_create st e.taskId e.contextId).2.chunks e hgt.2 (hgc ▸ hC) he
  exact ⟨updT_tasksOk x _ _ _ hgt.1 hp.1, hp.2⟩

theorem applyEvents_inv (x : String) :
    ∀ (evs : List TaskArtifactUpdateEvent) (st : TaskStore),
      TasksOk x st.tasks → ChunksOk st.chunks →
      (∀ e ∈ evs, NeverTerminates x e) →
      TasksOk x (applyEvents st (evs.map .artifactEvent)).tasks ∧
      ChunksOk (applyEvents st (evs.map .artifactEvent)).chunks := by
  intro evs
  induction evs with
  | nil => exact fun st hT hC _ => ⟨hT, hC⟩
  | cons e rest ih =>
    intro st hT hC hall
    have hstep := update_task_inv x st e hT hC (hall e (by simp))
    have := ih (update_task st (.artifactEvent e)).2 hstep.1 hstep.2
      (fun e' he' => hall e' (by simp [he']))
    simpa [applyEvents] using this

/-- C9.  For every sequence of artifact events, if the chunk sequence of id
`x` is only ever opened with `lastChunk=false` and never receives an event
with `lastChunk=true`, then no artifact with id `x` appears in any task's
artifact list: only fully assembled (or non-chunked) artifacts are ever
appended to a task. -/
theorem c9_no_partial_artifact_leak (evs : List TaskArtifactUpdateEvent)
    (x : String) (h : ∀ e ∈ evs, NeverTerminates x e) :
    ∀ tid t,
      (applyEvents TaskStore.empty (evs.map .artifactEvent)).tasks tid = some t →
      ∀ a ∈ t.artifactList, a.artifactId ≠ x := by
  have h0 : TasksOk x TaskStore.empty.tasks := by
    intro tid t ht
    simp [TaskStore.empty] at ht
  have h1 : ChunksOk TaskStore.empty.chunks := by
    intro aid a ha
    simp [TaskStore.empty] at ha
  exact (applyEvents_inv x evs TaskStore.empty h0 h1 h).1

/-- The witness event list for C9: id `x` is opened and extended but never
terminated, while id `y` arrives as a complete one-shot artifact. -/
def c9Events : List TaskArtifactUpdateEvent :=
  [⟨some "t1", none, ⟨"x", [⟨"p1"⟩]⟩, some false, some false⟩,
   ⟨some "t1", none, ⟨"x", [⟨"p2"⟩]⟩, some true, some false⟩,
   ⟨some "t1", none, ⟨"y", [⟨"q"⟩]⟩, some false, none⟩]

/-- Witness for C9 on `c9Events`: the hypotheses hold and no artifact with
id `x` leaks into any task. -/
theorem c9_witness :
    (∀ e ∈ c9Events, NeverTerminates "x" e) ∧
    (∀ tid t,
      (applyEvents TaskStore.empty (c9Events.map .artifactEvent)).tasks tid = some t →
      ∀ a ∈ t.artifactList, a.artifactId ≠ "x") :=
  ⟨by decide, c9_no_partial_artifact_leak c9Events "x" (by decide)⟩

/-! ### The tool-execution step (`ADKAgentExecutor._exec_tools`) -/

/-- The observable behaviour of one tool invocation: a normal return value,
the `x402PaymentRequiredException` payment signal, or any other raised
exception. -/
inductive ToolOutcome where
  | ok (result : String)
  | paymentRequired
  | failure (message : String)
deriving Repr, DecidableEq

/-- A tool registered on the runner's agent: its `__name__` and behaviour as
a function of the call arguments. -/
structure Tool where
  name : String
  behavior : List (String × String) → ToolOutcome

/-- A `FunctionCall` requested by the reasoning engine. -/
structure FunctionCall where
  name : String
  args : List (String × String)
deriving Repr, DecidableEq

/-- The `response` dict of a `FunctionResponse`: either
`\x7b"result": r\x7d` or `\x7b"error": str(e)\x7d`. -/
inductive ExecResponse where
  | result (value : String)
  | error (message : String)
deriving Repr, DecidableEq

/-- A `types.Part` carrying a `FunctionResponse` (name plus response). -/
structure ResponsePart where
  name : String
  response : ExecResponse
deriving Repr, DecidableEq

/-- An exception escaping `_exec_tools`: the re-raised payment signal, or
the `ValueError` raised for an unknown tool name. -/
inductive ExecExn where
  | paymentRequired
  | valueError (message : String)
deriving Repr, DecidableEq

/-- `next((t for t in self.runner.agent.tools if getattr(t, "__name__", None)
== call.name), None)`: first registered tool whose name matches. -/
def findTool (tools : List Tool) (name : String) : Option Tool :=
  tools.find? (fun t => t.name = name)

/-- The outcome of looking up and running one call (`None` when no tool
matches the call's name). -/
def callOutcome (tools : List Tool) (c : FunctionCall) : Option ToolOutcome :=
  (findTool tools c.name).map (fun t => t.behavior c.args)

/-- The loop body of `ADKAgentExecutor._exec_tools` with its `results`
accumulator made explicit.  For each call: unknown tool name raises
`ValueError` (uncaught); `x402PaymentRequiredException` is re-raised; any
other exception is caught and becomes an error `FunctionResponse`; a normal
return becomes a result `FunctionResponse`. -/
def exec_tools_from (tools : List Tool) :
    List FunctionCall → List ResponsePart → Except ExecExn (List ResponsePart)
  | [], results => .ok results
  | call :: rest, results =>
    match findTool tools call.name with
    | none => .error (.valueError ("Tool " ++ call.name ++ " not found."))
    | some tool =>
      match tool.behavior call.args with
      | .ok r => exec_tools_from tools rest (results ++ [⟨call.name, .result r⟩])
      | .paymentRequired => .error .paymentRequired
      | .failure m => exec_tools_from tools rest (results ++ [⟨call.name, .error m⟩])

/-- `ADKAgentExecutor._exec_tools`, starting from an empty accumulator. -/
def exec_tools (tools : List Tool) (calls : List FunctionCall) :
    Except ExecExn (List ResponsePart) :=
  exec_tools_from tools calls []

/-- The `FunctionResponse` part the loop produces for a resolvable,
non-payment call (unreachable placeholder values otherwise). -/
def expectedResponse (tools : List Tool) (c : FunctionCall) : ResponsePart :=
  match callOutcome tools c with
  | some (.ok r) => ⟨c.name, .result r⟩
  | some (.failure m) => ⟨c.name, .error m⟩
  | some .paymentRequired => ⟨c.name, .result ""⟩
  | none => ⟨c.name, .result ""⟩

/-- A call that resolves to a tool whose execution does not raise the
payment signal. -/
def SafeCall (tools : List Tool) (c : FunctionCall) : Prop :=
  (callOutcome tools c).isSome ∧ callOutcome tools c ≠ some .paymentRequired

instance (tools : List Tool) (c : FunctionCall) : Decidable (SafeCall tools c) := by
  unfold SafeCall
  infer_instance

theorem exec_tools_from_cons_none (tools : List Tool) (c : FunctionCall)
    (rest : List FunctionCall) (acc : List ResponsePart)
    (hf : findTool tools c.name = none) :
    exec_tools_from tools (c :: rest) acc =
      .error (.valueError ("Tool " ++ c.name ++ " not found.")) := by
  simp [exec_tools_from, hf]

theorem exec_tools_from_cons_ok (tools : List Tool) (c : FunctionCall)
    (rest : List FunctionCall) (acc : List ResponsePart) (tool : Tool)
    (r : String) (hf : findTool tools c.name = some tool)
    (hb : tool.behavior c.args = .ok r) :
    exec_tools_from tools (c :: rest) acc =
      exec_tools_from tools rest (acc ++ [⟨c.name, .result r⟩]) := by
  simp [exec_tools_from, hf, hb]

theorem exec_tools_from_cons_payment (tools : List Tool) (c : FunctionCall)
    (rest : List FunctionCall) (acc : List ResponsePart) (tool : Tool)
    (hf : findTool tools c.name = some tool)
    (hb : tool.behavior c.args = .paymentRequired) :
    exec_tools_from tools (c :: rest) acc = .error .paymentRequired := by
  simp [exec_tools_from, hf, hb]

theorem exec_tools_from_cons_failure (tools : List Tool) (c : FunctionCall)
    (rest : List FunctionCall) (acc : List ResponsePart) (tool : Tool)
    (m : String) (hf : findTool tools c.name = some tool)
    (hb : tool.behavior c.args = .failure m) :
    exec_tools_from tools (c :: rest) acc =
      exec_tools_from tools rest (acc ++ [⟨c.name, .error m⟩]) := by
  simp [exec_tools_from, hf, hb]

theorem exec_tools_from_safe (tools : List Tool) :
    ∀ (calls : List FunctionCall) (acc : List ResponsePart),
      (∀ c ∈ calls, SafeCall tools c) →
      exec_tools_from tools calls acc =
        .ok (acc ++ calls.map (expectedResponse tools)) := by
  intro calls
  induction calls with
  | nil => intro acc _; simp [exec_tools_from]
  | cons c rest ih =>
    intro acc hall
    have hc := hall c (by simp)
    obtain ⟨hsome, hnpr⟩ := hc
    cases hf : findTool tools c.name with
    | none => simp [callOutcome, hf] at hsome
    | some tool =>
      have hco : callOutcome tools c = some (tool.behavior c.args) := by
        simp [callOutcome, hf]
      cases hb : tool.behavior c.args with
      | ok r =>
        have h1 := exec_tools_from_cons_ok tools c rest acc tool r hf hb
        have h2 := ih (acc ++ [(⟨c.name, ExecResponse.result r⟩ : ResponsePart)])
          (fun c' h' => hall c' (by simp [h']))
        rw [h1, h2]
        simp [expectedResponse, callOutcome, hf, hb]
      | paymentRequired =>
        rw [hb] at hco
        exact absurd hco hnpr
      | failure m =>
        have h1 := exec_tools_from_cons_failure tools c rest acc tool m hf hb
        have h2 := ih (acc ++ [(⟨c.name, ExecResponse.error m⟩ : ResponsePart)])
          (fun c' h' => hall c' (by simp [h']))
        rw [h1, h2]
        simp [expectedResponse, callOutcome, hf, hb]

theorem exec_tools_from_payment (tools : List Tool) (c : FunctionCall)
    (post : List FunctionCall) (hpr : callOutcome tools c = some .paymentRequired) :
    ∀ (pre : List FunctionCall) (acc : List ResponsePart),
      (∀ c' ∈ pre, SafeCall tools c') →
      exec_tools_from tools (pre ++ c :: post) acc = .error .paymentRequired := by
  intro pre
  induction pre with
  | nil =>
    intro acc _
    cases hf : findTool tools c.name with
    | none => simp [callOutcome, hf] at hpr
    | some tool =>
      have hb : tool.behavior c.args = .paymentRequired := by
        simp [callOutcome, hf] at hpr
        exact hpr
      simpa using exec_tools_from_cons_payment tools c post acc tool hf hb
  | cons c0 rest ih =>
    intro acc hall
    have hc0 := hall c0 (by simp)
    obtain ⟨hsome, hnpr⟩ := hc0
    rw [List.cons_append]
    cases hf : findTool tools c0.name with
    | none => simp [callOutcome, hf] at hsome
    | some tool =>
      have hco : callOutcome tools c0 = some (tool.behavior c0.args) := by
        simp [callOutcome, hf]
      cases hb : tool.behavior c0.args with
      | ok r =>
        rw [exec_tools_from_cons_ok tools c0 _ acc tool r hf hb]
        exact ih _ (fun c' h' => hall c' (by simp [h']))
      | paymentRequired =>
        rw [hb] at hco
        exact absurd hco hnpr
      | failure m =>
        rw [exec_tools_from_cons_failure tools c0 _ acc tool m hf hb]
        exact ih _ (fun c' h' => hall c' (by simp [h']))

/-- C3.  In the tool-execution step, for every list of requested calls whose
names all resolve to registered tools: if some call's tool raises the
payment-required signal (all calls before it executing without one), the
signal propagates uncaught out of `_exec_tools`; if no call raises it, the
loop never aborts — every other failure is caught and converted into an
error `FunctionResponse` for that tool, returned in order alongside the
normal results to be fed back to the engine. -/
theorem c3_payment_propagates_other_failures_contained (tools : List Tool)
    (calls : List FunctionCall) (hfound : ∀ c ∈ calls, (callOutcome tools c).isSome) :
    (∀ pre c post, calls = pre ++ c :: post →
      (∀ c' ∈ pre, callOutcome tools c' ≠ some .paymentRequired) →
      callOutcome tools c = some .paymentRequired →
      exec_tools tools calls = .error .paymentRequired) ∧
    ((∀ c ∈ calls, callOutcome tools c ≠ some .paymentRequired) →
      exec_tools tools calls = .ok (calls.map (expectedResponse tools))) := by
  constructor
  · intro pre c post hsplit hpre hc
    subst hsplit
    exact exec_tools_from_payment tools c post hc pre []
      (fun c' h' => ⟨hfound c' (by simp [h']), hpre c' h'⟩)
  · intro hnone
    exact exec_tools_from_safe tools calls []
      (fun c h => ⟨hfound c h, hnone c h⟩)

/-- The demo tool inventory: a normally-returning tool, a failing tool, and
a payment-demanding tool. -/
def demoTools : List Tool :=
  [⟨"lookup_price", fun _ => .ok "42"⟩,
   ⟨"flaky", fun _ => .failure "boom"⟩,
   ⟨"get_product_details_and_request_payment", fun _ => .paymentRequired⟩]

/-- Witness for C3: on `demoTools`, a batch whose second tool fails is fully
converted (error entry in second position); a batch reaching the payment
tool aborts with the payment signal. -/
theorem c3_witness :
    exec_tools demoTools [⟨"lookup_price", []⟩, ⟨"flaky", []⟩] =
      .ok [⟨"lookup_price", .result "42"⟩, ⟨"flaky", .error "boom"⟩] ∧
    exec_tools demoTools
        [⟨"flaky", []⟩, ⟨"get_product_details_and_request_payment", []⟩, ⟨"lookup_price", []⟩] =
      .error .paymentRequired := by
  constructor
  · have h := (c3_payment_propagates_other_failures_contained demoTools
      [⟨"lookup_price", []⟩, ⟨"flaky", []⟩] (by decide)).2 (by decide)
    rw [h]
    rfl
  · exact (c3_payment_propagates_other_failures_contained demoTools
      [⟨"flaky", []⟩, ⟨"get_product_details_and_request_payment", []⟩, ⟨"lookup_price", []⟩]
      (by decide)).1 [⟨"flaky", []⟩] ⟨"get_product_details_and_request_payment", []⟩
      [⟨"lookup_price", []⟩] rfl (by decide) (by decide)

/-- C10 (implicit).  If the engine requests a call whose name matches no
registered tool — every call before it resolving and not raising the payment
signal — `_exec_tools` raises a `ValueError` that is not caught and not
converted into an error `FunctionResponse`: the whole execution aborts,
unlike failures of a found tool. -/
theorem c10_unknown_tool_raises (tools : List Tool) (pre : List FunctionCall)
    (c : FunctionCall) (post : List FunctionCall)
    (hpre : ∀ c' ∈ pre, SafeCall tools c')
    (hc : callOutcome tools c = none) :
    exec_tools tools (pre ++ c :: post) =
      .error (.valueError ("Tool " ++ c.name ++ " not found.")) := by
  have hf : findTool tools c.name = none := by
    simpa [callOutcome] using hc
  suffices hgen : ∀ (acc : List ResponsePart),
      exec_tools_from tools (pre ++ c :: post) acc =
        .error (.valueError ("Tool " ++ c.name ++ " not found.")) by
    exact hgen []
  induction pre with
  | nil =>
    intro acc
    simpa using exec_tools_from_cons_none tools c post acc hf
  | cons c0 rest ih =>
    intro acc
    have hc0 := hpre c0 (by simp)
    obtain ⟨hsome, hnpr⟩ := hc0
    rw [List.cons_append]
    cases hf0 : findTool tools c0.name with
    | none => simp [callOutcome, hf0] at hsome
    | some tool =>
      have hco : callOutcome tools c0 = some (tool.behavior c0.args) := by
        simp [callOutcome, hf0]
      cases hb : tool.behavior c0.args with
      | ok r =>
        rw [exec_tools_from_cons_ok tools c0 _ acc tool r hf0 hb]
        exact ih (fun c' h' => hpre c' (by simp [h'])) _
      | paymentRequired =>
        rw [hb] at hco
        exact absurd hco hnpr
      | failure m =>
        rw [exec_tools_from_cons_failure tools c0 _ acc tool m hf0 hb]
        exact ih (fun c' h' => hpre c' (by simp [h'])) _

/-- Witness for C10: an unknown tool name after a succeeding call aborts
`_exec_tools` with the `ValueError`. -/
theorem c10_witness :
    exec_tools demoTools [⟨"lookup_price", []⟩, ⟨"no_such_tool", []⟩] =
      .error (.valueError "Tool no_such_tool not found.") := by
  have h := c10_unknown_tool_raises demoTools [⟨"lookup_price", []⟩]
    ⟨"no_such_tool", []⟩ [] (by decide) (by decide)
  simpa using h

/-! ### Payment types and the facilitator-backed executor
(`a2a/server/payment.py`; `agents/x402_merchant_executor.py` is an identical
second copy of the same class). -/

/-- `bankofai.x402.types.FeeInfo` (the fields used here). -/
structure FeeInfo where
  fee_to : String
  fee_amount : String
deriving Repr, DecidableEq

/-- `bankofai.x402.types.PaymentRequirementsExtra`: display name, version,
optional fee terms. -/
structure PaymentRequirementsExtra where
  name : Option String
  version : Option String
  fee : Option FeeInfo
deriving Repr, DecidableEq

/-- The zero-argument constructor `PaymentRequirementsExtra()`. -/
def PaymentRequirementsExtra.default : PaymentRequirementsExtra :=
  ⟨none, none, none⟩

/-- `x402_a2a.types.PaymentRequirements`: one accepted payment option. -/
structure PaymentRequirements where
  scheme : String
  network : String
  amount : String
  asset : String
  payTo : String
  maxTimeoutSeconds : Nat
  extra : Option PaymentRequirementsExtra
deriving Repr, DecidableEq

/-- `x402_a2a.types.PaymentPayload`: opaque signed proof. -/
structure PaymentPayload where
  payload : String
deriving Repr, DecidableEq

/-- `x402_a2a.types.VerifyResponse`. -/
structure VerifyResponse where
  is_valid : Bool
  invalid_reason : Option String
deriving Repr, DecidableEq

/-- `x402_a2a.types.SettleResponse`. -/
structure SettleResponse where
  success : Bool
  transaction : Option String
  error_reason : Option String
deriving Repr, DecidableEq

/-- One quote returned by the facilitator's `/fee/quote` capability. -/
structure FeeQuote where
  network : String
  scheme : String
  asset : String
  fee : Option FeeInfo
deriving Repr, DecidableEq

/-- An exception raised by a facilitator network call (unavailability,
timeout, HTTP error). -/
inductive FacilitatorError where
  | unavailable (message : String)
deriving Repr, DecidableEq

/-- `FacilitatorClient`: each capability is a network call that either
returns a response or raises. -/
structure FacilitatorClient where
  verify : PaymentPayload → PaymentRequirements → Except FacilitatorError VerifyResponse
  settle : PaymentPayload → PaymentRequirements → Except FacilitatorError SettleResponse
  fee_quote : List PaymentRequirements → Except FacilitatorError (List FeeQuote)

/-- `x402MerchantExecutor.verify_payment`: awaits the facilitator's verify
call, logs the outcome, and returns the response unchanged.  There is no
`except` block, so a raised exception propagates to the caller. -/
def verify_payment (fac : FacilitatorClient) (payload : PaymentPayload)
    (requirements : PaymentRequirements) : Except FacilitatorError VerifyResponse :=
  match fac.verify payload requirements with
  | .ok resp => .ok resp
  | .error e => .error e

/-- `x402MerchantExecutor.settle_payment`: same shape as `verify_payment`
with the facilitator's settle call. -/
def settle_payment (fac : FacilitatorClient) (payload : PaymentPayload)
    (requirements : PaymentRequirements) : Except FacilitatorError SettleResponse :=
  match fac.settle payload requirements with
  | .ok resp => .ok resp
  | .error e => .error e

/-- C4.  `verify_payment` and `settle_payment` return exactly the
facilitator's response — no transformation of `is_valid`/`success` or the
reason fields — and a facilitator exception propagates as-is: neither
operation catches it or substitutes an assume-valid result. -/
theorem c4_verify_settle_passthrough (fac : FacilitatorClient)
    (payload : PaymentPayload) (requirements : PaymentRequirements) :
    verify_payment fac payload requirements = fac.verify payload requirements ∧
    settle_payment fac payload requirements = fac.settle payload requirements := by
  constructor
  · unfold verify_payment
    cases fac.verify payload requirements <;> rfl
  · unfold settle_payment
    cases fac.settle payload requirements <;> rfl

/-! ### C6: fee enrichment (`x402MerchantExecutor._enrich_accepts`) -/

/-- `fee_map.get((network, scheme, asset))` where `fee_map` is the dict
comprehension over the quotes — on duplicate keys the later quote wins, and
a quote carrying no fee yields a falsy entry, so both "no quote" and "quote
without fee" come out as `none` (matching `if fee:` on a `FeeInfo` object,
which is always truthy). -/
def feeLookup (quotes : List FeeQuote) (key : String × String × String) :
    Option FeeInfo :=
  match quotes.reverse.find? (fun q => (q.network, q.scheme, q.asset) = key) with
  | some q => q.fee
  | none => none

/-- The per-option body of the `for req in accepts` loop: when a fee quote
matches the option's `(network, scheme, asset)` key, rebuild `extra` via
`req.model_copy` with the fee populated (preserving name and version, with
`req.extra or PaymentRequirementsExtra()` supplying defaults); otherwise
pass the option through unchanged. -/
def enrichReq (quotes : List FeeQuote) (req : PaymentRequirements) :
    PaymentRequirements :=
  match feeLookup quotes (req.network, req.scheme, req.asset) with
  | some fee =>
    let extra := req.extra.getD PaymentRequirementsExtra.default
    { req with extra := some ⟨extra.name, extra.version, some fee⟩ }
  | none => req

/-- `x402MerchantExecutor._enrich_accepts`: call the facilitator's
`fee_quote`, enrich each option; on any exception, log and return the
original list (fail-open). -/
def enrich_accepts (fac : FacilitatorClient)
    (accepts : List PaymentRequirements) : List PaymentRequirements :=
  match fac.fee_quote accepts with
  | .ok quotes => accepts.map (enrichReq quotes)
  | .error _ => accepts

/-- The enriched copy the spec describes: the option rebuilt by
`req.model_copy` with `extra.fee` populated and name/version preserved. -/
def enrichedCopy (req : PaymentRequirements) (fee : FeeInfo) : PaymentRequirements :=
  { req with
    extra := some ⟨(req.extra.getD PaymentRequirementsExtra.default).name,
      (req.extra.getD PaymentRequirementsExtra.default).version, some fee⟩ }

/-- C6.  Fee enrichment is fail-open: if the facilitator fee-quote call
raises, `_enrich_accepts` returns the original input list unchanged instead
of propagating the error; otherwise it returns a list of the same length and
order in which each option whose `(network, scheme, asset)` key matches a
quote gets a fresh copy with `extra.fee` populated (name/version preserved),
and each option without a match passes through unchanged.  (The input list
is never mutated: every enriched entry is a new value built by
`model_copy`.) -/
theorem c6_fee_enrichment_fail_open (fac : FacilitatorClient)
    (accepts : List PaymentRequirements) :
    (∀ e, fac.fee_quote accepts = .error e →
      enrich_accepts fac accepts = accepts) ∧
    (∀ quotes, fac.fee_quote accepts = .ok quotes →
      (enrich_accepts fac accepts).length = accepts.length ∧
      ∀ (i : Nat) (req : PaymentRequirements), accepts[i]? = some req →
        (∀ fee, feeLookup quotes (req.network, req.scheme, req.asset) = some fee →
          (enrich_accepts fac accepts)[i]? = some (enrichedCopy req fee)) ∧
        (feeLookup quotes (req.network, req.scheme, req.asset) = none →
          (enrich_accepts fac accepts)[i]? = some req)) := by
  constructor
  · intro e he
    simp [enrich_accepts, he]
  · intro quotes hq
    constructor
    · simp [enrich_accepts, hq]
    · intro i req hreq
      have hmap : (enrich_accepts fac accepts)[i]? = some (enrichReq quotes req) := by
        simp [enrich_accepts, hq, List.getElem?_map, hreq]
      constructor
      · intro fee hfee
        rw [hmap]
        simp [enrichReq, hfee, enrichedCopy]
      · intro hnone
        rw [hmap]
        simp [enrichReq, hnone]

/-- A facilitator whose every capability raises (service down). -/
def facDown : FacilitatorClient :=
  ⟨fun _ _ => .error (.unavailable "connection refused"),
   fun _ _ => .error (.unavailable "connection refused"),
   fun _ => .error (.unavailable "connection refused")⟩

/-- A demo payment option (USDT on tron:nile, no fee terms yet). -/
def reqDemo : PaymentRequirements :=
  ⟨"exact_permit", "tron:nile", "100", "USDT", "TMerchant", 1200,
   some ⟨some "USDT", some "1", none⟩⟩

/-- The demo fee quote matching `reqDemo`'s key. -/
def quotesDemo : List FeeQuote :=
  [⟨"tron:nile", "exact_permit", "USDT", some ⟨"TFeeCollector", "7"⟩⟩]

/-- A facilitator that answers `fee_quote` with `quotesDemo`. -/
def facQuotes : FacilitatorClient :=
  ⟨fun _ _ => .error (.unavailable "unused"),
   fun _ _ => .error (.unavailable "unused"),
   fun _ => .ok quotesDemo⟩

/-- Witness for C6: the failing facilitator leaves the list unchanged; the
answering one enriches `reqDemo` with the quoted fee, preserving name and
version. -/
theorem c6_witness :
    enrich_accepts facDown [reqDemo] = [reqDemo] ∧
    (enrich_accepts facQuotes [reqDemo])[0]? =
      some ⟨"exact_permit", "tron:nile", "100", "USDT", "TMerchant", 1200,
        some ⟨some "USDT", some "1", some ⟨"TFeeCollector", "7"⟩⟩⟩ :=
  ⟨(c6_fee_enrichment_fail_open facDown [reqDemo]).1
      (.unavailable "connection refused") rfl,
   (((c6_fee_enrichment_fail_open facQuotes [reqDemo]).2 quotesDemo rfl).2
      0 reqDemo rfl).1 ⟨"TFeeCollector", "7"⟩ (by decide)⟩

/-! ### C5: the payment-verified flag is consumed exactly once
(`ADKAgentExecutor.execute` + `MerchantAgent.before_agent_callback`) -/

/-- The slice of ADK session state this flow touches: the
`payment_verified_data` entry (a string-keyed dict when present). -/
structure SessionState where
  paymentVerifiedData : Option (List (String × String))
deriving Repr, DecidableEq

/-- The virtual `check_payment_status` tool response injected as
`ctx.new_user_message`. -/
structure VirtualContent where
  name : String
  response : List (String × String)
deriving Repr, DecidableEq

/-- Lookup in a task's `metadata` dict (values here are booleans, which is
what the x402 wrapper stores under the verified marker). -/
def assocLookup (k : String) : List (String × Bool) → Option Bool
  | [] => none
  | (k', v) :: rest => if k' = k then some v else assocLookup k rest

/-- The injection step of `ADKAgentExecutor.execute` (lines 34-38): when the
current task's metadata carries a truthy `x402_payment_verified` marker, set
`session.state["payment_verified_data"]` to the dict with
`status = "SUCCESS"`; otherwise leave the session state alone. -/
def execute_payment_inject (currentTask : Option (List (String × Bool)))
    (st : SessionState) : SessionState :=
  match currentTask with
  | some meta =>
    if (assocLookup "x402_payment_verified" meta).getD false then
      { st with paymentVerifiedData := some [("status", "SUCCESS")] }
    else st
  | none => st

/-- `MerchantAgent.before_agent_callback`: read
`ctx.state.get("payment_verified_data")`; when falsy (absent or empty dict)
return without touching anything; otherwise delete the state entry and
inject the virtual `check_payment_status` function response carrying the
data. -/
def before_agent_callback (st : SessionState) :
    SessionState × Option VirtualContent :=
  match st.paymentVerifiedData with
  | none => (st, none)
  | some data =>
    if data.isEmpty then (st, none)
    else (⟨none⟩, some ⟨"check_payment_status", data⟩)

/-- C5.  The payment-verified flag is consumed exactly once: re-invoking the
executor on a task whose metadata carries a truthy payment-verified marker
injects the verification data into session state; the agent's before-agent
callback deletes that state entry at the same moment it injects the virtual
`check_payment_status` tool response; and on any subsequent invocation of
the callback for the same session the flag is gone and no virtual response
is injected. -/
theorem c5_verified_flag_consumed_once (meta : List (String × Bool))
    (st : SessionState)
    (h : (assocLookup "x402_payment_verified" meta).getD false = true) :
    (execute_payment_inject (some meta) st).paymentVerifiedData =
      some [("status", "SUCCESS")] ∧
    (before_agent_callback (execute_payment_inject (some meta) st)).2 =
      some ⟨"check_payment_status", [("status", "SUCCESS")]⟩ ∧
    (before_agent_callback
        (execute_payment_inject (some meta) st)).1.paymentVerifiedData = none ∧
    before_agent_callback
        (before_agent_callback (execute_payment_inject (some meta) st)).1 =
      ((before_agent_callback (execute_payment_inject (some meta) st)).1, none) := by
  simp [execute_payment_inject, h, before_agent_callback]

/-- Witness for C5: a task metadata dict carrying the verified marker, on a
session with no pending flag. -/
theorem c5_witness :
    (before_agent_callback
        (execute_payment_inject (some [("x402_payment_verified", true)]) ⟨none⟩)).2 =
      some ⟨"check_payment_status", [("status", "SUCCESS")]⟩ ∧
    before_agent_callback
        (before_agent_callback
          (execute_payment_inject (some [("x402_payment_verified", true)]) ⟨none⟩)).1 =
      ((before_agent_callback
          (execute_payment_inject (some [("x402_payment_verified", true)]) ⟨none⟩)).1,
        none) :=
  ⟨(c5_verified_flag_consumed_once [("x402_payment_verified", true)] ⟨none⟩
      (by decide)).2.1,
   (c5_verified_flag_consumed_once [("x402_payment_verified", true)] ⟨none⟩
      (by decide)).2.2.2⟩

end X402
